import Mathlib

/-!
Verification of the rule-set compiler and matching engine of
`src/InterestingFilesModule.cpp` (an interesting-files post-processing module):
the translation of parsed rule-definition trees into validated SQL search
conditions, and the execution of those conditions with per-set findings.

The C++ source is embedded shallowly: the file-scope `fileSets` vector and the
two function-local `static` variables (`setNames` in `isValidSetName`,
`defaultSetNumber` in `compileInterestingFilesSet`) become an explicit
`ModuleState` threaded through the compilation functions; the external XML
parser, metadata store and blackboard are modelled at their interface
boundary.
-/

namespace InterestingFiles

/-- Status code returned by the module API entry points (`TskModule::Status`). -/
inductive TskStatus where
  | ok
  | fail
deriving DecidableEq, Repr

/-- One attribute of a parsed XML element: a name and a value
(`Poco::XML::NamedNodeMap` entry, already converted from `XMLString`). -/
structure XmlAttr where
  attrName : String
  attrValue : String
deriving DecidableEq, Repr

/-- A node of the parsed rule-definition tree (`Poco::XML::Node`): an element
node with tag name, attributes, inner text and child nodes, or a non-element
node (text, comment), which the compiler's `nodeType` check skips. -/
inductive XmlNode where
  | element (tag : String) (attrs : List XmlAttr) (text : String) (children : List XmlNode)
  | nonElement

/-- The `nodeName()` of a node (tag name for element nodes). -/
def XmlNode.nodeName : XmlNode → String
  | XmlNode.element tag _ _ _ => tag
  | XmlNode.nonElement => ""

/-- The attribute list of a node. -/
def XmlNode.attributes : XmlNode → List XmlAttr
  | XmlNode.element _ attrs _ _ => attrs
  | XmlNode.nonElement => []

/-- The `innerText()` of a node. -/
def XmlNode.innerText : XmlNode → String
  | XmlNode.element _ _ text _ => text
  | XmlNode.nonElement => ""

/-- The `childNodes()` of a node. -/
def XmlNode.childNodes : XmlNode → List XmlNode
  | XmlNode.element _ _ _ children => children
  | XmlNode.nonElement => []

/-- Whether `nodeType()` is `ELEMENT_NODE`. -/
def XmlNode.isElement : XmlNode → Bool
  | XmlNode.element _ _ _ _ => true
  | XmlNode.nonElement => false

/-- An interesting files set: a set name, a set description, and SQL WHERE
clauses specifying which files belong to the set (`struct InterestingFilesSet`,
source lines 43-49). -/
structure InterestingFilesSet where
  name : String
  description : String
  conditions : List String
deriving DecidableEq, Repr

/-- List-level body of `addEscapesToPattern`: prefix each `_`, `%` or `#`
character with the escape character `#`. -/
def addEscapesToList : List Char → List Char
  | [] => []
  | c :: rest =>
    if c = '_' ∨ c = '%' ∨ c = '#' then '#' :: c :: addEscapesToList rest
    else c :: addEscapesToList rest

/-- `addEscapesToPattern` (source lines 57-72): escape the SQL LIKE
metacharacters `_` and `%`, and the escape character `#` itself, with `#`. -/
def addEscapesToPattern (inputPattern : String) : String :=
  String.mk (addEscapesToList inputPattern.data)

/-- Modelled from the spec: numeric value of the framework enum constant
`TSK_FS_META_TYPE_REG` streamed into the SQL text; the enum is declared
outside this repository. -/
def TSK_FS_META_TYPE_REG : Nat := 1

/-- Modelled from the spec: numeric value of the framework enum constant
`TSK_FS_META_TYPE_DIR` streamed into the SQL text; the enum is declared
outside this repository. -/
def TSK_FS_META_TYPE_DIR : Nat := 2

/-- Modelled from the spec: the metadata store helper `TskImgDB::quote` used
by `compileNameSearchCondition`, external to this repository; standard SQL
string quoting that wraps the text in single quotes. -/
def quote (s : String) : String :=
  "\x27" ++ String.mk (s.data.flatMap (fun c => if c = '\x27' then [c, c] else [c])) ++ "\x27"

/-- `addPathAndTypeFilterOptions` (source lines 76-130): append the optional
`pathFilter` (path substring, escaped for LIKE) and `typeFilter`
(`file`/`dir`) clauses to a condition under construction; unrecognized
attributes, unrecognized `typeFilter` values and attributes with empty values
are logged and ignored. -/
def addPathAndTypeFilterOptions (conditionDefinition : XmlNode) (conditionBuilder : String) : String :=
  conditionDefinition.attributes.foldl
    (fun acc a =>
      if a.attrValue ≠ "" then
        if a.attrName = "pathFilter" then
          acc ++ " AND UPPER(full_path) LIKE UPPER(\x27%" ++ addEscapesToPattern a.attrValue ++ "%\x27) ESCAPE \x27#\x27"
        else if a.attrName = "typeFilter" then
          if a.attrValue = "file" then
            acc ++ " AND meta_type = " ++ toString TSK_FS_META_TYPE_REG
          else if a.attrValue = "dir" then
            acc ++ " AND meta_type = " ++ toString TSK_FS_META_TYPE_DIR
          else acc
        else acc
      else acc)
    conditionBuilder

/-- `compileNameSearchCondition` (source lines 133-144): build a WHERE clause
for an exact (case-insensitive) file-name match; an empty inner text produces
no condition. -/
def compileNameSearchCondition (conditionDefinition : XmlNode) (conditions : List String) : List String :=
  let name := conditionDefinition.innerText
  if name ≠ "" then
    conditions ++ [addPathAndTypeFilterOptions conditionDefinition
      ("WHERE UPPER(name) = UPPER(" ++ quote name ++ ")") ++ " ORDER BY file_id"]
  else conditions

/-- The leading-dot normalization of `compileExtensionSearchCondition`
(source lines 152-156): supply the leading dot if omitted. -/
def dotExtension (extension : String) : String :=
  if extension.data.head? = some '.' then extension else "." ++ extension

/-- The WHERE clause built by `compileExtensionSearchCondition` for a
(dot-normalized) extension: a case-insensitive LIKE suffix test with escaped
pattern text, plus the optional path/type filters. -/
def extensionClause (conditionDefinition : XmlNode) (extension : String) : String :=
  addPathAndTypeFilterOptions conditionDefinition
    ("WHERE UPPER(name) LIKE UPPER(\x27%" ++ addEscapesToPattern extension ++ "\x27) ESCAPE \x27#\x27 ") ++ " ORDER BY file_id"

/-- `compileExtensionSearchCondition` (source lines 147-164): build a WHERE
clause for a case-insensitive file-extension suffix match; an empty inner
text produces no condition. -/
def compileExtensionSearchCondition (conditionDefinition : XmlNode) (conditions : List String) : List String :=
  if conditionDefinition.innerText ≠ "" then
    conditions ++ [extensionClause conditionDefinition (dotExtension conditionDefinition.innerText)]
  else conditions

/-- The file-path characters forbidden in a set name
(`find_first_of("<>:\"/\\|?*")` in `isValidSetName`). -/
def pathChars : List Char := ['<', '>', ':', '"', '/', '\\', '|', '?', '*']

/-- `isValidSetName` (source lines 167-201): reject a set name containing a
file-path character, equal to `.` or `..`, or already accepted; otherwise
accept it and record it in the accepted-name tracker. The C++ tracker is a
function-local `static std::set`, modelled as the explicit name list that is
returned updated. -/
def isValidSetName (setName : String) (setNames : List String) : Bool × List String :=
  if setName.data.any (fun c => pathChars.contains c) then (false, setNames)
  else if setName = "." ∨ setName = ".." then (false, setNames)
  else if setNames.contains setName then (false, setNames)
  else (true, setNames ++ [setName])

/-- The process-wide mutable state of the module: the compiled sets
(file-scope `fileSets` vector), the accepted-name tracker (function-local
`static` `setNames` in `isValidSetName`) and the default-name counter
(function-local `static` `defaultSetNumber` in
`compileInterestingFilesSet`). -/
structure ModuleState where
  fileSets : List InterestingFilesSet
  setNames : List String
  defaultSetNumber : Nat
deriving DecidableEq, Repr

/-- The state at process start: no compiled sets, no accepted names, and a
default-name counter initialized to 1. -/
def freshState : ModuleState := ⟨[], [], 1⟩

/-- The attribute-reading loop of `compileInterestingFilesSet` (source lines
211-243): read the `name` and `description` attributes; unrecognized
attributes and attributes with empty values are logged and ignored. -/
def readSetAttributes (attrs : List XmlAttr) : InterestingFilesSet :=
  attrs.foldl
    (fun fs a =>
      if a.attrValue ≠ "" then
        if a.attrName = "name" then { fs with name := a.attrValue }
        else if a.attrName = "description" then { fs with description := a.attrValue }
        else fs
      else fs)
    ⟨"", "", []⟩

/-- The default set name `Unnamed_<N>` (source lines 246-252). -/
def defaultSetName (n : Nat) : String := "Unnamed_" ++ toString n

/-- The per-child dispatch of `compileInterestingFilesSet` (source lines
257-279): compile a `NAME` or `EXTENSION` element child into a condition;
other element tags are logged and ignored, non-element nodes are skipped. -/
def compileCondition (conditionDefinition : XmlNode) (conditions : List String) : List String :=
  match conditionDefinition with
  | XmlNode.element tag _ _ _ =>
    if tag = "NAME" then compileNameSearchCondition conditionDefinition conditions
    else if tag = "EXTENSION" then compileExtensionSearchCondition conditionDefinition conditions
    else conditions
  | XmlNode.nonElement => conditions

/-- The child-iteration loop of `compileInterestingFilesSet`: compile the
children in document order, accumulating conditions. -/
def compileConditions : List XmlNode → List String → List String
  | [], conditions => conditions
  | conditionDefinition :: rest, conditions =>
    compileConditions rest (compileCondition conditionDefinition conditions)

/-- `compileInterestingFilesSet` (source lines 204-293): read the set's name
and description, assign a default `Unnamed_<N>` name (advancing the counter)
when the name is absent or empty, validate the name, compile the child
conditions, and append the set to the compiled list unless its name was
rejected or no condition survived. -/
def compileInterestingFilesSet (st : ModuleState) (fileSetDefinition : XmlNode) : ModuleState :=
  let fileSet0 := readSetAttributes fileSetDefinition.attributes
  let fileSet :=
    if fileSet0.name = "" then { fileSet0 with name := defaultSetName st.defaultSetNumber }
    else fileSet0
  let st0 :=
    if fileSet0.name = "" then { st with defaultSetNumber := st.defaultSetNumber + 1 }
    else st
  let checked := isValidSetName fileSet.name st0.setNames
  let st1 := { st0 with setNames := checked.snd }
  if checked.fst then
    let conds := compileConditions fileSetDefinition.childNodes []
    if conds ≠ [] then
      { st1 with fileSets := st1.fileSets ++ [{ fileSet with conditions := conds }] }
    else st1
  else st1

/-- The outcome of locating, opening and parsing the configuration file in
the module's initialization entry point; the file system and the XML parser
are external collaborators, so the four paths the code distinguishes
(missing file, unopenable file, parse exception, parsed document) are
modelled as an input. -/
inductive ConfigSource where
  | missing
  | unopenable
  | parseFailure
  | parsed (fileSetDefinitions : List XmlNode)

/-- The module initialization entry point (source lines 338-404): clear the
compiled set list, then, if the configuration file exists, opens and parses,
compile every `INTERESTING_FILE_SET` element; every path returns
`TskModule::OK`. The two function-local `static` variables are not touched
here. -/
def initModule (cfg : ConfigSource) (st : ModuleState) : TskStatus × ModuleState :=
  let st0 := { st with fileSets := [] }
  match cfg with
  | ConfigSource.parsed fileSetDefinitions =>
    (TskStatus.ok, fileSetDefinitions.foldl compileInterestingFilesSet st0)
  | _ => (TskStatus.ok, st0)

/-- The module cleanup entry point `finalize` (source lines 454-458): clear
the compiled set list and return `TskModule::OK`. -/
def finalizeModule (st : ModuleState) : TskStatus × ModuleState :=
  (TskStatus.ok, { st with fileSets := [] })

/-- A finding posted to the blackboard: a `TSK_INTERESTING_FILE_HIT` artifact
on a file with a `TSK_SET_NAME` attribute carrying the owning set's
description and name (source lines 430-432). -/
structure Finding where
  fileId : Nat
  setName : String
  setDescription : String
deriving DecidableEq, Repr

/-- The external services used by `report()`: the metadata store query
`getFileIds` (returns the matching file ids for a WHERE clause, or throws)
and the blackboard posting of one artifact-plus-attribute (may throw). Both
are modelled as oracles fixed for one run. -/
structure RunEnv where
  getFileIds : String → Except String (List Nat)
  post : Nat → String → String → Except String Unit

/-- The artifact-posting loop of `report()` (source lines 428-433): post one
finding per returned file id, in order; a throw stops the loop for this
condition, keeping the findings already posted and signalling the error. -/
def recordIds (post : Nat → String → String → Except String Unit) (fs : InterestingFilesSet) :
    List Nat → List Finding × Bool
  | [] => ([], false)
  | fileId :: rest =>
    match post fileId fs.description fs.name with
    | Except.error _ => ([], true)
    | Except.ok _ =>
      let r := recordIds post fs rest
      (Finding.mk fileId fs.name fs.description :: r.fst, r.snd)

/-- The try-block of `report()` for one condition (source lines 425-442): run
the query, then post one finding per returned file id; an exception from the
query or from a posting is caught, logged, and signalled as this condition's
error flag. -/
def recordConditionHits (env : RunEnv) (fs : InterestingFilesSet) (condition : String) :
    List Finding × Bool :=
  match env.getFileIds condition with
  | Except.error _ => ([], true)
  | Except.ok fileIds => recordIds env.post fs fileIds

/-- The condition loop of `report()`: process the conditions of one set in
order, concatenating their findings and latching their error flags. -/
def reportConditions (env : RunEnv) (fs : InterestingFilesSet) :
    List String → List Finding × Bool
  | [] => ([], false)
  | condition :: rest =>
    let r := recordConditionHits env fs condition
    let more := reportConditions env fs rest
    (r.fst ++ more.fst, r.snd || more.snd)

/-- The set loop of `report()`: process the compiled sets in order,
concatenating their findings and latching their error flags. -/
def reportSets (env : RunEnv) : List InterestingFilesSet → List Finding × Bool
  | [] => ([], false)
  | fs :: rest =>
    let r := reportConditions env fs fs.conditions
    let more := reportSets env rest
    (r.fst ++ more.fst, r.snd || more.snd)

/-- The module execution entry point `report()` (source lines 412-447):
return `FAIL` immediately when no set was compiled; otherwise run every
condition of every set, post the findings, and return `FAIL` exactly when
some condition's query or posting threw, `OK` otherwise. The second
component collects the findings posted to the blackboard, in posting
order. -/
def report (env : RunEnv) (fileSets : List InterestingFilesSet) : TskStatus × List Finding :=
  if fileSets = [] then (TskStatus.fail, [])
  else
    let r := reportSets env fileSets
    ((if r.snd then TskStatus.fail else TskStatus.ok), r.fst)

/-- The file ids a query returns in the error-free case. -/
def queryIds (env : RunEnv) (condition : String) : List Nat :=
  match env.getFileIds condition with
  | Except.ok fileIds => fileIds
  | Except.error _ => []

/-- Modelled from the spec: the external metadata store's evaluation of the
SQL predicate `text LIKE pattern ESCAPE '#'` (the store and its SQL engine
are outside this repository). `%` matches any sequence of characters, `_`
matches any single character, and the escape character `#` followed by any
character matches exactly that character. -/
def likeMatch : List Char → List Char → Bool
  | [], [] => true
  | [], _ :: _ => false
  | p :: ps, [] =>
    if p = '%' then likeMatch ps [] else false
  | p :: ps, c :: s =>
    if p = '%' then likeMatch ps (c :: s) || likeMatch (p :: ps) s
    else if p = '#' then
      (match ps with
       | [] => false
       | q :: ps2 => q == c && likeMatch ps2 s)
    else if p = '_' then likeMatch ps s
    else p == c && likeMatch ps s
termination_by p s => p.length + s.length

/-- The list `t` occurs literally (character for character) at the end of
`s`. -/
def isLiteralSuffix (t s : List Char) : Prop := ∃ a, s = a ++ t

/-- The list `t` occurs literally (character for character) somewhere inside
`s`. -/
def isLiteralSubstring (t s : List Char) : Prop := ∃ a b, s = a ++ t ++ b

/-- Modelled from the spec: the metadata store evaluating the LIKE test of
the clause built by `compileExtensionSearchCondition`, that is
`UPPER(name) LIKE UPPER('%<escaped extension>') ESCAPE '#'` (note both
operands pass through `UPPER`, and the pattern literal is the percent sign
followed by the escaped extension text). -/
def extensionLikeTest (extension : String) (fileName : String) : Bool :=
  likeMatch (('%' :: (addEscapesToPattern extension).data).map Char.toUpper)
    (fileName.data.map Char.toUpper)

/-- Modelled from the spec: the metadata store evaluating the LIKE test of
the `pathFilter` clause built by `addPathAndTypeFilterOptions`, that is
`UPPER(full_path) LIKE UPPER('%<escaped value>%') ESCAPE '#'`. -/
def pathFilterLikeTest (value : String) (fullPath : String) : Bool :=
  likeMatch (('%' :: ((addEscapesToPattern value).data ++ ['%'])).map Char.toUpper)
    (fullPath.data.map Char.toUpper)

/-- The name under which a rule-set element is validated: the value of its
`name` attribute, or the next default name when that value is absent or
empty. -/
def effectiveSetName (st : ModuleState) (fileSetDefinition : XmlNode) : String :=
  let fileSet0 := readSetAttributes fileSetDefinition.attributes
  if fileSet0.name = "" then defaultSetName st.defaultSetNumber else fileSet0.name

/-! Helper lemmas about `Char.toUpper` on the characters that are special to
the LIKE pattern syntax. -/

theorem char_toNat_ofNat {n : Nat} (h : n.isValidChar) : (Char.ofNat n).toNat = n := by
  rw [Char.ofNat, dif_pos h]
  simp [Char.ofNatAux, Char.toNat, UInt32.toNat]

theorem toUpper_toNat_of_lower {c : Char} (h : 97 ≤ c.toNat ∧ c.toNat ≤ 122) :
    (Char.toUpper c).toNat = c.toNat - 32 := by
  have hv : (c.toNat - 32).isValidChar := Or.inl (by omega)
  show ((let n := c.toNat; if n ≥ 97 ∧ n ≤ 122 then Char.ofNat (n - 32) else c)).toNat = c.toNat - 32
  simp only []
  rw [if_pos h]
  exact char_toNat_ofNat hv

theorem toUpper_eq_self_of_not_lower {c : Char} (h : ¬(97 ≤ c.toNat ∧ c.toNat ≤ 122)) :
    Char.toUpper c = c := by
  show (let n := c.toNat; if n ≥ 97 ∧ n ≤ 122 then Char.ofNat (n - 32) else c) = c
  simp only []
  rw [if_neg h]

theorem toUpper_eq_special_iff (c d : Char) (hd1 : d.toNat < 97) (hd2 : d.toNat < 65 ∨ 90 < d.toNat) :
    (Char.toUpper c = d ↔ c = d) := by
  by_cases hl : 97 ≤ c.toNat ∧ c.toNat ≤ 122
  · have h1 := toUpper_toNat_of_lower hl
    constructor
    · intro he
      rw [he] at h1
      omega
    · intro he
      rw [he] at hl
      omega
  · rw [toUpper_eq_self_of_not_lower hl]

theorem toUpper_special_or (c : Char) :
    (Char.toUpper c = '_' ∨ Char.toUpper c = '%' ∨ Char.toUpper c = '#') ↔
      (c = '_' ∨ c = '%' ∨ c = '#') := by
  rw [toUpper_eq_special_iff c '_' (by decide) (by decide),
      toUpper_eq_special_iff c '%' (by decide) (by decide),
      toUpper_eq_special_iff c '#' (by decide) (by decide)]

theorem map_toUpper_addEscapes (t : List Char) :
    (addEscapesToList t).map Char.toUpper = addEscapesToList (t.map Char.toUpper) := by
  induction t with
  | nil => simp [addEscapesToList]
  | cons c cs ih =>
    by_cases hc : c = '_' ∨ c = '%' ∨ c = '#'
    · have hcu : Char.toUpper c = c := by
        rcases hc with h | h | h <;> rw [h] <;> decide
      rw [addEscapesToList, if_pos hc]
      rw [List.map_cons, List.map_cons, List.map_cons]
      rw [addEscapesToList, if_pos (by rw [hcu]; exact hc)]
      rw [ih, hcu]
      rfl
    · have hc2 : ¬(Char.toUpper c = '_' ∨ Char.toUpper c = '%' ∨ Char.toUpper c = '#') :=
        fun h => hc ((toUpper_special_or c).mp h)
      rw [addEscapesToList, if_neg hc]
      rw [List.map_cons, List.map_cons]
      rw [addEscapesToList, if_neg hc2, ih]

/-! Helper lemmas evaluating `likeMatch` one constructor step at a time (the
definition uses well-founded recursion, so its equations are applied by
rewriting). -/

theorem likeMatch_nil_left (s : List Char) : likeMatch [] s = s.isEmpty := by
  cases s <;> simp [likeMatch]

theorem likeMatch_percent_nil (ps : List Char) : likeMatch ('%' :: ps) [] = likeMatch ps [] := by
  rw [likeMatch.eq_def]
  simp

theorem likeMatch_percent_cons (ps : List Char) (c : Char) (s : List Char) :
    likeMatch ('%' :: ps) (c :: s) = (likeMatch ps (c :: s) || likeMatch ('%' :: ps) s) := by
  rw [likeMatch.eq_def]
  simp

theorem likeMatch_hash_cons (q : Char) (ps : List Char) (c : Char) (s : List Char) :
    likeMatch ('#' :: q :: ps) (c :: s) = (q == c && likeMatch ps s) := by
  rw [likeMatch.eq_def]
  simp

theorem likeMatch_hash_nil (ps : List Char) : likeMatch ('#' :: ps) [] = false := by
  rw [likeMatch.eq_def]
  simp

theorem likeMatch_cons_nil (p : Char) (ps : List Char) (h : p ≠ '%') :
    likeMatch (p :: ps) [] = false := by
  rw [likeMatch.eq_def]
  simp [h]

theorem likeMatch_lit_cons (p : Char) (ps : List Char) (c : Char) (s : List Char)
    (h1 : p ≠ '%') (h2 : p ≠ '#') (h3 : p ≠ '_') :
    likeMatch (p :: ps) (c :: s) = (p == c && likeMatch ps s) := by
  rw [likeMatch.eq_def]
  simp [h1, h2, h3]

/-! The behaviour of `likeMatch` on the pattern shapes the compiler produces:
an escaped text matches exactly itself, an escaped text preceded by `%`
matches exactly the strings ending in it, and an escaped text surrounded by
`%` matches exactly the strings containing it. -/

theorem likeMatch_escape (t : List Char) :
    ∀ s, likeMatch (addEscapesToList t) s = true ↔ s = t := by
  induction t with
  | nil =>
    intro s
    rw [show addEscapesToList [] = [] from rfl, likeMatch_nil_left]
    cases s <;> simp
  | cons c cs ih =>
    intro s
    by_cases hc : c = '_' ∨ c = '%' ∨ c = '#'
    · have hesc : addEscapesToList (c :: cs) = '#' :: c :: addEscapesToList cs := by
        rw [addEscapesToList, if_pos hc]
      cases s with
      | nil => rw [hesc, likeMatch_hash_nil]; simp
      | cons d s2 =>
        rw [hesc, likeMatch_hash_cons]
        simp only [Bool.and_eq_true, beq_iff_eq, ih]
        constructor
        · rintro ⟨rfl, rfl⟩; rfl
        · intro h
          injection h with h1 h2
          exact ⟨h1.symm, h2⟩
    · push_neg at hc
      obtain ⟨h1, h2, h3⟩ := hc
      have hesc : addEscapesToList (c :: cs) = c :: addEscapesToList cs := by
        rw [addEscapesToList, if_neg (by tauto)]
      cases s with
      | nil => rw [hesc, likeMatch_cons_nil c _ h2]; simp
      | cons d s2 =>
        rw [hesc, likeMatch_lit_cons c _ d s2 h2 h3 h1]
        simp only [Bool.and_eq_true, beq_iff_eq, ih]
        constructor
        · rintro ⟨rfl, rfl⟩; rfl
        · intro h
          injection h with ha hb
          exact ⟨ha.symm, hb⟩

theorem likeMatch_single_percent (s : List Char) : likeMatch ['%'] s = true := by
  induction s with
  | nil => rw [likeMatch_percent_nil, likeMatch_nil_left]; rfl
  | cons c s2 ih => rw [likeMatch_percent_cons, ih]; simp

theorem likeMatch_percent (ps : List Char) (s : List Char) :
    likeMatch ('%' :: ps) s = true ↔ ∃ a b, s = a ++ b ∧ likeMatch ps b = true := by
  induction s with
  | nil =>
    rw [likeMatch_percent_nil]
    constructor
    · intro h; exact ⟨[], [], by simp, h⟩
    · rintro ⟨a, b, hab, hb⟩
      obtain ⟨ha, hb2⟩ := List.append_eq_nil.mp hab.symm
      subst ha; subst hb2; exact hb
  | cons c s2 ih =>
    rw [likeMatch_percent_cons]
    simp only [Bool.or_eq_true]
    constructor
    · rintro (h | h)
      · exact ⟨[], c :: s2, rfl, h⟩
      · obtain ⟨a, b, hab, hb⟩ := ih.mp h
        exact ⟨c :: a, b, by simp [hab], hb⟩
    · rintro ⟨a, b, hab, hb⟩
      cases a with
      | nil =>
        left
        simp at hab
        rw [hab]; exact hb
      | cons x a2 =>
        right
        apply ih.mpr
        injection hab with hx htail
        exact ⟨a2, b, htail, hb⟩

theorem likeMatch_escape_percent (t : List Char) :
    ∀ s, likeMatch (addEscapesToList t ++ ['%']) s = true ↔ ∃ b, s = t ++ b := by
  induction t with
  | nil =>
    intro s
    rw [show addEscapesToList [] ++ ['%'] = ['%'] from rfl, likeMatch_single_percent]
    simp
  | cons c cs ih =>
    intro s
    by_cases hc : c = '_' ∨ c = '%' ∨ c = '#'
    · have hesc : addEscapesToList (c :: cs) ++ ['%'] = '#' :: c :: (addEscapesToList cs ++ ['%']) := by
        rw [addEscapesToList, if_pos hc]; rfl
      cases s with
      | nil => rw [hesc, likeMatch_hash_nil]; simp
      | cons d s2 =>
        rw [hesc, likeMatch_hash_cons]
        simp only [Bool.and_eq_true, beq_iff_eq, ih]
        constructor
        · rintro ⟨rfl, b, rfl⟩; exact ⟨b, rfl⟩
        · rintro ⟨b, h⟩
          injection h with ha hb
          exact ⟨ha.symm, b, hb⟩
    · push_neg at hc
      obtain ⟨h1, h2, h3⟩ := hc
      have hesc : addEscapesToList (c :: cs) ++ ['%'] = c :: (addEscapesToList cs ++ ['%']) := by
        rw [addEscapesToList, if_neg (by tauto)]; rfl
      cases s with
      | nil => rw [hesc, likeMatch_cons_nil c _ h2]; simp
      | cons d s2 =>
        rw [hesc, likeMatch_lit_cons c _ d s2 h2 h3 h1]
        simp only [Bool.and_eq_true, beq_iff_eq, ih]
        constructor
        · rintro ⟨rfl, b, rfl⟩; exact ⟨b, rfl⟩
        · rintro ⟨b, h⟩
          injection h with ha hb
          exact ⟨ha.symm, b, hb⟩

theorem likeMatch_literal_end (t s : List Char) :
    likeMatch ('%' :: addEscapesToList t) s = true ↔ isLiteralSuffix t s := by
  rw [likeMatch_percent]
  constructor
  · rintro ⟨a, b, rfl, hb⟩
    rw [likeMatch_escape] at hb
    exact ⟨a, by rw [hb]⟩
  · rintro ⟨a, rfl⟩
    exact ⟨a, t, rfl, (likeMatch_escape t t).mpr rfl⟩

theorem likeMatch_literal_inside (t s : List Char) :
    likeMatch ('%' :: (addEscapesToList t ++ ['%'])) s = true ↔ isLiteralSubstring t s := by
  rw [likeMatch_percent]
  constructor
  · rintro ⟨a, b, rfl, hb⟩
    rw [likeMatch_escape_percent] at hb
    obtain ⟨b2, rfl⟩ := hb
    exact ⟨a, b2, by simp⟩
  · rintro ⟨a, b, rfl⟩
    refine ⟨a, t ++ b, by simp, ?_⟩
    rw [likeMatch_escape_percent]
    exact ⟨b, rfl⟩

/-- C3: every extension match text and every pathFilter value has its LIKE
metacharacters escaped, so it matches files literally, never as wildcards. -/
theorem escaped_like_patterns_match_literally :
    (∀ extension fileName : String,
       extensionLikeTest extension fileName = true ↔
         isLiteralSuffix (extension.data.map Char.toUpper) (fileName.data.map Char.toUpper))
    ∧ (∀ value fullPath : String,
       pathFilterLikeTest value fullPath = true ↔
         isLiteralSubstring (value.data.map Char.toUpper) (fullPath.data.map Char.toUpper))
    ∧ extensionLikeTest (dotExtension "a_b") "axxb" = false
    ∧ extensionLikeTest (dotExtension "a_b") "x.a_b" = true := by
  refine ⟨?_, ?_, ?_, ?_⟩
  · intro extension fileName
    unfold extensionLikeTest
    rw [show (addEscapesToPattern extension).data = addEscapesToList extension.data from rfl]
    rw [List.map_cons]
    rw [show Char.toUpper '%' = '%' from by decide]
    rw [map_toUpper_addEscapes]
    exact likeMatch_literal_end _ _
  · intro value fullPath
    unfold pathFilterLikeTest
    rw [show (addEscapesToPattern value).data = addEscapesToList value.data from rfl]
    rw [List.map_cons, List.map_append]
    rw [show Char.toUpper '%' = '%' from by decide]
    rw [show List.map Char.toUpper ['%'] = ['%'] from by decide]
    rw [map_toUpper_addEscapes]
    exact likeMatch_literal_inside _ _
  · have hp : ('%' :: (addEscapesToPattern (dotExtension "a_b")).data).map Char.toUpper = "%.A#_B".data := by decide
    have hs : ("axxb" : String).data.map Char.toUpper = "AXXB".data := by decide
    unfold extensionLikeTest
    rw [hp, hs]
    simp [likeMatch]
  · have hp : ('%' :: (addEscapesToPattern (dotExtension "a_b")).data).map Char.toUpper = "%.A#_B".data := by decide
    have hs : ("x.a_b" : String).data.map Char.toUpper = "X.A_B".data := by decide
    unfold extensionLikeTest
    rw [hp, hs]
    simp [likeMatch]

/-! Helper lemmas about the error flag and the findings accumulated by
`report`. -/

theorem reportConditions_snd (env : RunEnv) (fs : InterestingFilesSet) (l : List String) :
    (reportConditions env fs l).snd = true ↔
      ∃ c ∈ l, (recordConditionHits env fs c).snd = true := by
  induction l with
  | nil => simp [reportConditions]
  | cons c rest ih =>
    simp only [reportConditions, Bool.or_eq_true, ih, List.mem_cons]
    constructor
    · rintro (h | ⟨d, hd, h⟩)
      · exact ⟨c, Or.inl rfl, h⟩
      · exact ⟨d, Or.inr hd, h⟩
    · rintro ⟨d, hd | hd, h⟩
      · subst hd; exact Or.inl h
      · exact Or.inr ⟨d, hd, h⟩

theorem reportSets_snd (env : RunEnv) (sets : List InterestingFilesSet) :
    (reportSets env sets).snd = true ↔
      ∃ fs ∈ sets, ∃ c ∈ fs.conditions, (recordConditionHits env fs c).snd = true := by
  induction sets with
  | nil => simp [reportSets]
  | cons fs rest ih =>
    simp only [reportSets, Bool.or_eq_true, ih, reportConditions_snd, List.mem_cons]
    constructor
    · rintro (h | ⟨g, hg, h⟩)
      · exact ⟨fs, Or.inl rfl, h⟩
      · exact ⟨g, Or.inr hg, h⟩
    · rintro ⟨g, hg | hg, h⟩
      · subst hg; exact Or.inl h
      · exact Or.inr ⟨g, hg, h⟩

/-- C1: `report` returns `FAIL` exactly when no rule set was compiled or some
condition of some set hit an execution error in its query or in the
recording of a finding; with at least one compiled set and no execution
error (in particular when every query returns no matches) it returns
`OK`. -/
theorem report_fail_iff (env : RunEnv) (fileSets : List InterestingFilesSet) :
    (report env fileSets).fst = TskStatus.fail ↔
      (fileSets = [] ∨ ∃ fs ∈ fileSets, ∃ c ∈ fs.conditions,
        (recordConditionHits env fs c).snd = true) := by
  by_cases h : fileSets = []
  · subst h
    simp [report]
  · rw [report, if_neg h]
    dsimp only
    by_cases hb : (reportSets env fileSets).snd = true
    · rw [if_pos hb]
      exact iff_of_true rfl (Or.inr ((reportSets_snd env fileSets).mp hb))
    · rw [if_neg hb]
      refine iff_of_false (by decide) ?_
      rintro (hc | hc)
      · exact h hc
      · exact hb ((reportSets_snd env fileSets).mpr hc)

theorem recordIds_fst_of_no_error (post : Nat → String → String → Except String Unit)
    (fs : InterestingFilesSet) (ids : List Nat)
    (h : (recordIds post fs ids).snd = false) :
    (recordIds post fs ids).fst = ids.map (fun i => Finding.mk i fs.name fs.description) := by
  induction ids with
  | nil => simp [recordIds]
  | cons i rest ih =>
    rw [recordIds] at h ⊢
    cases hp : post i fs.description fs.name with
    | error e =>
      rw [hp] at h
      simp at h
    | ok u =>
      rw [hp] at h
      dsimp only at h ⊢
      rw [List.map_cons, ih h]

theorem recordConditionHits_fst_of_no_error (env : RunEnv) (fs : InterestingFilesSet)
    (c : String) (h : (recordConditionHits env fs c).snd = false) :
    (recordConditionHits env fs c).fst =
      (queryIds env c).map (fun i => Finding.mk i fs.name fs.description) := by
  rw [recordConditionHits] at h ⊢
  cases hq : env.getFileIds c with
  | error e =>
    rw [hq] at h
    simp at h
  | ok ids =>
    rw [hq] at h
    dsimp only at h ⊢
    rw [show queryIds env c = ids from by rw [queryIds, hq]]
    exact recordIds_fst_of_no_error env.post fs ids h

theorem reportConditions_fst (env : RunEnv) (fs : InterestingFilesSet) (l : List String) :
    (reportConditions env fs l).fst = l.flatMap (fun c => (recordConditionHits env fs c).fst) := by
  induction l with
  | nil => simp [reportConditions]
  | cons c rest ih => simp [reportConditions, ih]

theorem reportSets_fst (env : RunEnv) (sets : List InterestingFilesSet) :
    (reportSets env sets).fst =
      sets.flatMap (fun fs => (reportConditions env fs fs.conditions).fst) := by
  induction sets with
  | nil => simp [reportSets]
  | cons fs rest ih => simp [reportSets, ih]

/-- C9: in an error-free run, the findings recorded by `report` are exactly
one finding per file id returned by each condition's query, carrying the
owning set's name and description, concatenated per set and per condition in
order and not deduplicated across conditions of the same set. -/
theorem report_records_one_finding_per_hit (env : RunEnv)
    (fileSets : List InterestingFilesSet)
    (h : ∀ fs ∈ fileSets, ∀ c ∈ fs.conditions, (recordConditionHits env fs c).snd = false) :
    (report env fileSets).snd =
      fileSets.flatMap (fun fs => fs.conditions.flatMap (fun c =>
        (queryIds env c).map (fun i => Finding.mk i fs.name fs.description))) := by
  by_cases hempty : fileSets = []
  · subst hempty
    simp [report]
  · rw [report, if_neg hempty]
    dsimp only
    rw [reportSets_fst]
    apply List.flatMap_congr
    intro fs hfs
    rw [reportConditions_fst]
    apply List.flatMap_congr
    intro c hc
    exact recordConditionHits_fst_of_no_error env fs c (h fs hfs c hc)

/-- Witness for C9 at a concrete input: one set with two conditions both
matching file 5 yields two findings for file 5 — hits are not deduplicated
across the conditions of one set. -/
theorem report_records_one_finding_per_hit_witness :
    (report ⟨fun _ => Except.ok [5], fun _ _ _ => Except.ok ()⟩
        [⟨"S", "D", ["c1", "c2"]⟩]).snd =
      [Finding.mk 5 "S" "D", Finding.mk 5 "S" "D"] := by
  rw [report_records_one_finding_per_hit ⟨fun _ => Except.ok [5], fun _ _ _ => Except.ok ()⟩
        [⟨"S", "D", ["c1", "c2"]⟩] (by decide)]
  decide

/-! Helper lemmas about set-name validation and rule-set compilation. -/

theorem isValidSetName_rejects {setName : String} {setNames : List String}
    (h : (∃ c ∈ setName.data, c ∈ pathChars) ∨ setName = "." ∨ setName = ".." ∨
      setName ∈ setNames) :
    isValidSetName setName setNames = (false, setNames) := by
  rw [isValidSetName]
  by_cases h1 : setName.data.any (fun c => pathChars.contains c) = true
  · rw [if_pos h1]
  · rw [if_neg h1]
    by_cases h2 : setName = "." ∨ setName = ".."
    · rw [if_pos h2]
    · rw [if_neg h2]
      have h3 : setNames.contains setName = true := by
        rcases h with hc | hd | hd | hm
        · refine absurd ?_ h1
          simp only [List.any_eq_true]
          obtain ⟨c, hcm, hcp⟩ := hc
          exact ⟨c, hcm, by simp [List.contains, hcp]⟩
        · exact absurd (Or.inl hd) h2
        · exact absurd (Or.inr hd) h2
        · simp [List.contains, hm]
      rw [if_pos h3]

/-- C2: a rule-set element whose (possibly default-assigned) name contains a
file-path character, equals `.` or `..`, or duplicates an already-accepted
name, contributes nothing to the compiled list: the whole set is absent and
none of its child conditions are compiled. -/
theorem invalid_set_name_drops_whole_set (st : ModuleState) (fileSetDefinition : XmlNode)
    (h : (∃ c ∈ (effectiveSetName st fileSetDefinition).data, c ∈ pathChars) ∨
      effectiveSetName st fileSetDefinition = "." ∨
      effectiveSetName st fileSetDefinition = ".." ∨
      effectiveSetName st fileSetDefinition ∈ st.setNames) :
    (compileInterestingFilesSet st fileSetDefinition).fileSets = st.fileSets := by
  rw [compileInterestingFilesSet]
  rw [effectiveSetName] at h
  dsimp only at h ⊢
  by_cases hname : (readSetAttributes fileSetDefinition.attributes).name = ""
  · simp only [if_pos hname] at h ⊢
    rw [isValidSetName_rejects h]
    simp
  · simp only [if_neg hname] at h ⊢
    rw [isValidSetName_rejects h]
    simp

/-- Witness for C2 at a concrete input: a set named `a/b` (path character)
is dropped even though it has a valid condition child. -/
theorem invalid_set_name_drops_whole_set_witness :
    (compileInterestingFilesSet freshState
        (XmlNode.element "INTERESTING_FILE_SET" [⟨"name", "a/b"⟩] ""
          [XmlNode.element "NAME" [] "x.txt" []])).fileSets = freshState.fileSets := by
  exact invalid_set_name_drops_whole_set freshState
    (XmlNode.element "INTERESTING_FILE_SET" [⟨"name", "a/b"⟩] ""
      [XmlNode.element "NAME" [] "x.txt" []])
    (by decide)

/-- C10: default names are validated like explicit names: when the next
default name `Unnamed_<N>` is already taken, the unnamed rule set is
rejected as a duplicate and dropped entirely, while the default-name counter
still advances by one. -/
theorem duplicate_default_name_dropped_counter_advances (st : ModuleState)
    (fileSetDefinition : XmlNode)
    (hname : (readSetAttributes fileSetDefinition.attributes).name = "")
    (hdup : defaultSetName st.defaultSetNumber ∈ st.setNames) :
    compileInterestingFilesSet st fileSetDefinition =
      { st with defaultSetNumber := st.defaultSetNumber + 1 } := by
  rw [compileInterestingFilesSet]
  simp only [if_pos hname]
  rw [isValidSetName_rejects (Or.inr (Or.inr (Or.inr hdup)))]
  simp

/-- Witness for C10 at a concrete input: with `Unnamed_1` already accepted,
an unnamed set is dropped and the counter moves from 1 to 2. -/
theorem duplicate_default_name_dropped_counter_advances_witness :
    compileInterestingFilesSet ⟨[], ["Unnamed_1"], 1⟩
        (XmlNode.element "INTERESTING_FILE_SET" [] "" [XmlNode.element "NAME" [] "a.txt" []]) =
      ⟨[], ["Unnamed_1"], 2⟩ := by
  exact duplicate_default_name_dropped_counter_advances ⟨[], ["Unnamed_1"], 1⟩
    (XmlNode.element "INTERESTING_FILE_SET" [] "" [XmlNode.element "NAME" [] "a.txt" []])
    (by decide) (by decide)

theorem compileInterestingFilesSet_preserves_nonempty (st : ModuleState) (n : XmlNode)
    (h : ∀ fs ∈ st.fileSets, fs.conditions ≠ []) :
    ∀ fs ∈ (compileInterestingFilesSet st n).fileSets, fs.conditions ≠ [] := by
  intro fs hfs
  rw [compileInterestingFilesSet] at hfs
  dsimp only at hfs
  by_cases hname : (readSetAttributes n.attributes).name = ""
  · simp only [if_pos hname] at hfs
    split at hfs
    · split at hfs
      · rename_i hconds
        simp only [List.mem_append, List.mem_singleton] at hfs
        rcases hfs with hfs | hfs
        · exact h fs hfs
        · subst hfs
          exact hconds
      · exact h fs hfs
    · exact h fs hfs
  · simp only [if_neg hname] at hfs
    split at hfs
    · split at hfs
      · rename_i hconds
        simp only [List.mem_append, List.mem_singleton] at hfs
        rcases hfs with hfs | hfs
        · exact h fs hfs
        · subst hfs
          exact hconds
      · exact h fs hfs
    · exact h fs hfs

theorem foldl_compile_preserves_nonempty (defs : List XmlNode) (st : ModuleState)
    (h : ∀ fs ∈ st.fileSets, fs.conditions ≠ []) :
    ∀ fs ∈ (defs.foldl compileInterestingFilesSet st).fileSets, fs.conditions ≠ [] := by
  induction defs generalizing st with
  | nil => simpa using h
  | cons d rest ih =>
    rw [List.foldl_cons]
    exact ih _ (compileInterestingFilesSet_preserves_nonempty st d h)

/-- C8: every `InterestingFilesSet` in the compiled list after an
initialization has at least one condition — a set whose surviving condition
sequence is empty is discarded and never appears in the compiled list. -/
theorem compiled_sets_have_nonempty_conditions (cfg : ConfigSource) (st : ModuleState) :
    ∀ fs ∈ ((initModule cfg st).snd).fileSets, fs.conditions ≠ [] := by
  cases cfg with
  | missing => intro fs hfs; simp [initModule] at hfs
  | unopenable => intro fs hfs; simp [initModule] at hfs
  | parseFailure => intro fs hfs; simp [initModule] at hfs
  | parsed defs =>
    rw [initModule]
    dsimp only
    exact foldl_compile_preserves_nonempty defs _ (by simp)

/-- Witness for C8 at a concrete input: the one set compiled from a valid
definition indeed has a non-empty condition list. -/
theorem compiled_sets_have_nonempty_conditions_witness :
    (InterestingFilesSet.mk "A" ""
        ["WHERE UPPER(name) = UPPER(\x27x.txt\x27) ORDER BY file_id"]).conditions ≠ [] := by
  exact compiled_sets_have_nonempty_conditions
    (ConfigSource.parsed [XmlNode.element "INTERESTING_FILE_SET" [⟨"name", "A"⟩] ""
      [XmlNode.element "NAME" [] "x.txt" []]])
    freshState
    (InterestingFilesSet.mk "A" ""
      ["WHERE UPPER(name) = UPPER(\x27x.txt\x27) ORDER BY file_id"])
    (by decide)

/-- C7: initialization always reports `OK`, whether the configuration file
is missing, cannot be opened, or fails to parse; an unparseable
rule-definition tree leaves the compiled list empty while the step itself
still succeeds. -/
theorem initialization_always_ok (st : ModuleState) :
    (∀ cfg, (initModule cfg st).fst = TskStatus.ok)
    ∧ (initModule ConfigSource.missing st).snd.fileSets = []
    ∧ (initModule ConfigSource.unopenable st).snd.fileSets = []
    ∧ (initModule ConfigSource.parseFailure st).snd.fileSets = [] := by
  refine ⟨fun cfg => ?_, rfl, rfl, rfl⟩
  cases cfg <;> rfl

/-- C4, demonstrated false on the code: the accepted-name tracker is a
function-local `static` that no code path ever clears, so a set name
accepted by a first initialization is rejected as a duplicate by a second
initialization of the same process, leaving the compiled list empty. -/
theorem second_initialization_rejects_previously_accepted_name :
    ((initModule (ConfigSource.parsed [XmlNode.element "INTERESTING_FILE_SET"
          [⟨"name", "A"⟩] "" [XmlNode.element "NAME" [] "secret.txt" []]])
        freshState).snd.fileSets.map InterestingFilesSet.name = ["A"])
    ∧ (initModule (ConfigSource.parsed [XmlNode.element "INTERESTING_FILE_SET"
          [⟨"name", "A"⟩] "" [XmlNode.element "NAME" [] "secret.txt" []]])
        ((initModule (ConfigSource.parsed [XmlNode.element "INTERESTING_FILE_SET"
            [⟨"name", "A"⟩] "" [XmlNode.element "NAME" [] "secret.txt" []]])
          freshState).snd)).snd.fileSets = [] := by
  decide

/-- C5 counterexample: a `NAME` condition element whose inner text is a
single space (whitespace-only) does produce a condition — the code checks
only for emptiness and performs no trimming. -/
theorem whitespace_text_still_produces_condition :
    compileConditions [XmlNode.element "NAME" [] " " []] [] ≠ [] := by
  decide

theorem compileConditions_append (a b : List XmlNode) (cs : List String) :
    compileConditions (a ++ b) cs = compileConditions b (compileConditions a cs) := by
  induction a generalizing cs with
  | nil => rfl
  | cons n rest ih =>
    rw [List.cons_append, compileConditions, compileConditions, ih]

/-- C5 as amended: a condition element whose inner text is exactly empty
(no trimming is applied, so whitespace-only text is not covered) produces no
condition, and the compilation of sibling elements is unaffected by its
presence. -/
theorem empty_text_produces_no_condition (tag : String) (attrs : List XmlAttr)
    (children : List XmlNode) (pre rest : List XmlNode) (cs : List String) :
    compileCondition (XmlNode.element tag attrs "" children) cs = cs
    ∧ compileConditions (pre ++ XmlNode.element tag attrs "" children :: rest) cs =
        compileConditions (pre ++ rest) cs := by
  have hno : ∀ cs2, compileCondition (XmlNode.element tag attrs "" children) cs2 = cs2 := by
    intro cs2
    rw [compileCondition]
    by_cases h1 : tag = "NAME"
    · rw [if_pos h1, compileNameSearchCondition]
      simp [XmlNode.innerText]
    · rw [if_neg h1]
      by_cases h2 : tag = "EXTENSION"
      · rw [if_pos h2, compileExtensionSearchCondition]
        simp [XmlNode.innerText]
      · rw [if_neg h2]
  refine ⟨hno cs, ?_⟩
  rw [compileConditions_append, compileConditions_append, compileConditions, hno]

/-- C6: every compiled extension condition stores match text beginning with
a dot (prepended when the configured value omits it), so compiling
`EXTENSION="txt"` and `EXTENSION=".txt"` yields identical conditions. -/
theorem extension_condition_starts_with_dot (tag : String) (attrs : List XmlAttr)
    (children : List XmlNode) (c : Char) (t : List Char) (conds : List String) :
    ((dotExtension (String.mk (c :: t))).data.head? = some '.')
    ∧ compileExtensionSearchCondition (XmlNode.element tag attrs (String.mk (c :: t)) children)
        conds =
        conds ++ [extensionClause (XmlNode.element tag attrs (String.mk (c :: t)) children)
          (dotExtension (String.mk (c :: t)))]
    ∧ compileExtensionSearchCondition (XmlNode.element tag attrs (String.mk (c :: t)) children)
        conds =
        compileExtensionSearchCondition
          (XmlNode.element tag attrs (dotExtension (String.mk (c :: t))) children) conds
    ∧ compileExtensionSearchCondition (XmlNode.element "EXTENSION" [] "txt" []) [] =
        compileExtensionSearchCondition (XmlNode.element "EXTENSION" [] ".txt" []) [] := by
  have hne : String.mk (c :: t) ≠ "" := by
    intro h
    exact absurd (congrArg String.data h) (by simp)
  have h1 : (dotExtension (String.mk (c :: t))).data.head? = some '.' := by
    rw [dotExtension]
    by_cases hc : (String.mk (c :: t)).data.head? = some '.'
    · rw [if_pos hc]
      exact hc
    · rw [if_neg hc]
      show ("." ++ String.mk (c :: t)).data.head? = some '.'
      rw [String.data_append]
      rfl
  have hne2 : dotExtension (String.mk (c :: t)) ≠ "" := by
    intro h
    rw [h] at h1
    exact absurd h1 (by simp)
  have hidem : dotExtension (dotExtension (String.mk (c :: t))) =
      dotExtension (String.mk (c :: t)) := by
    rw [dotExtension, if_pos h1]
  refine ⟨h1, ?_, ?_, ?_⟩
  · rw [compileExtensionSearchCondition]
    rw [if_pos (by simpa [XmlNode.innerText] using hne)]
    rfl
  · rw [compileExtensionSearchCondition, compileExtensionSearchCondition]
    rw [if_pos (by simpa [XmlNode.innerText] using hne),
        if_pos (by simpa [XmlNode.innerText] using hne2)]
    show conds ++ [extensionClause (XmlNode.element tag attrs (String.mk (c :: t)) children)
        (dotExtension (String.mk (c :: t)))] =
      conds ++ [extensionClause (XmlNode.element tag attrs (dotExtension (String.mk (c :: t))) children)
        (dotExtension (dotExtension (String.mk (c :: t))))]
    rw [hidem]
    rfl
  · decide

end InterestingFiles
